import Mathlib

/-!
Shallow embedding of the pose-sampling and capture pipeline of
`src/main.py` (posenet-datagen-isaac), together with theorems settling the
frozen claims about it.

Conventions of the embedding:
* `gymapi.Vec3` / `gymapi.Quat` become `Vec3` / `Quat` over `ℝ`
  (components x, y, z and x, y, z, w with `w` the scalar part).
* numpy float arithmetic is modelled over `ℝ` (or `ℚ` where exact
  comparison and `decide` matter); this is the usual exact-arithmetic gloss.
* random draws (`np.random.uniform`, `np.random.randint`) are modelled by
  passing the drawn value in explicitly; `randint`'s failure on an empty
  range becomes `Except`.
-/

namespace PosenetDatagen

/-- `gymapi.Vec3`: a 3-vector with real components. -/
structure Vec3 where
  x : ℝ
  y : ℝ
  z : ℝ

/-- Componentwise addition of `gymapi.Vec3` (the `+` in `main.py:297`). -/
noncomputable def Vec3.add (a b : Vec3) : Vec3 :=
  ⟨a.x + b.x, a.y + b.y, a.z + b.z⟩

noncomputable instance : Add Vec3 := ⟨Vec3.add⟩

theorem Vec3.add_def (a b : Vec3) :
    a + b = ⟨a.x + b.x, a.y + b.y, a.z + b.z⟩ := rfl

/-- `gymapi.Quat`: quaternion with components x, y, z (vector part) and
w (scalar part), the layout used by both `gymapi.Quat(x,y,z,w)` and
`scipy...as_quat()`. -/
structure Quat where
  x : ℝ
  y : ℝ
  z : ℝ
  w : ℝ

/-- Hamilton quaternion product, the `*` of `gymapi.Quat` used in
`q_random*q_stable` (`main.py:298`). -/
noncomputable def Quat.qmul (a b : Quat) : Quat :=
  ⟨a.w * b.x + a.x * b.w + a.y * b.z - a.z * b.y,
   a.w * b.y - a.x * b.z + a.y * b.w + a.z * b.x,
   a.w * b.z + a.x * b.y - a.y * b.x + a.z * b.w,
   a.w * b.w - a.x * b.x - a.y * b.y - a.z * b.z⟩

/-- Cross product of the vector parts, helper for quaternion rotation. -/
noncomputable def Vec3.cross (a b : Vec3) : Vec3 :=
  ⟨a.y * b.z - a.z * b.y, a.z * b.x - a.x * b.z, a.x * b.y - a.y * b.x⟩

/-- `gymapi.Quat.rotate`: rotate a vector by a (unit) quaternion,
`v + w*t + u × t` with `t = 2 (u × v)`, `u` the vector part
(`q_random.rotate(p_stable)` in `main.py:297`). -/
noncomputable def Quat.rotate (q : Quat) (v : Vec3) : Vec3 :=
  let u : Vec3 := ⟨q.x, q.y, q.z⟩
  let t : Vec3 := ⟨2 * (u.cross v).x, 2 * (u.cross v).y, 2 * (u.cross v).z⟩
  ⟨v.x + q.w * t.x + (u.cross t).x,
   v.y + q.w * t.y + (u.cross t).y,
   v.z + q.w * t.z + (u.cross t).z⟩

/-- Squared norm of a quaternion. -/
noncomputable def Quat.normSq (q : Quat) : ℝ :=
  q.x ^ 2 + q.y ^ 2 + q.z ^ 2 + q.w ^ 2

/-- `gymapi.Quat.normalize`: divide each component by the Euclidean norm
(`(q_random*q_stable).normalize()` in `main.py:298`). -/
noncomputable def Quat.qnormalize (q : Quat) : Quat :=
  let n : ℝ := Real.sqrt q.normSq
  ⟨q.x / n, q.y / n, q.z / n, q.w / n⟩

/-- A rigid transform, `gymapi.Transform`: position plus orientation. -/
structure Transform where
  p : Vec3
  r : Quat

/-- Pose composition of `main.py:296-299`:
`p = q_random.rotate(p_stable) + p_random`,
`q = (q_random*q_stable).normalize()`. -/
noncomputable def composePose (pStable : Vec3) (qStable : Quat)
    (pRandom : Vec3) (qRandom : Quat) : Transform :=
  ⟨(qRandom.rotate pStable) + pRandom, (qRandom.qmul qStable).qnormalize⟩

/-- `pose_type_conversion` (`main.py:367-374`): a transform as the 7-vector
`[p.x, p.y, p.z, q.x, q.y, q.z, q.w]`. -/
noncomputable def poseTypeConversion (t : Transform) : List ℝ :=
  [t.p.x, t.p.y, t.p.z, t.r.x, t.r.y, t.r.z, t.r.w]

/-- The identity quaternion `(0,0,0,1)`. -/
noncomputable def Quat.id : Quat := ⟨0, 0, 0, 1⟩

/-- `scipy.spatial.transform.Rotation.from_euler('z', θ).as_quat()`:
a pure yaw by angle θ as the quaternion `(0, 0, sin(θ/2), cos(θ/2))`
(`main.py:291,293`). -/
noncomputable def fromEulerZ (θ : ℝ) : Quat :=
  ⟨0, 0, Real.sin (θ / 2), Real.cos (θ / 2)⟩

/-- The random planar offset of `main.py:284-287`:
`(u_x, u_y, 0.0021)` with `u_x, u_y` the two uniform draws. -/
noncomputable def pRandomOffset (ux uy : ℝ) : Vec3 := ⟨ux, uy, 21 / 10000⟩

/-- C5: the composed pose is position `q_random.rotate(p_stable) + p_random`
and orientation `normalize(q_random * q_stable)` (random rotation on the
left), and at `p_stable = (0,0,0)`, `q_stable = identity`,
`p_random = (1, 0, 0.0021)`, `q_random = identity` the 7-vector form is
`(1, 0, 0.0021, 0, 0, 0, 1)`. -/
theorem composePose_formula_and_example :
    (∀ (ps : Vec3) (qs : Quat) (pr : Vec3) (qr : Quat),
      composePose ps qs pr qr =
        ⟨(qr.rotate ps) + pr, (qr.qmul qs).qnormalize⟩) ∧
    poseTypeConversion (composePose ⟨0, 0, 0⟩ Quat.id (pRandomOffset 1 0) Quat.id) =
      [1, 0, 21 / 10000, 0, 0, 0, 1] := by
  refine ⟨fun ps qs pr qr => rfl, ?_⟩
  simp only [composePose, poseTypeConversion, Quat.id, pRandomOffset, Quat.rotate,
    Vec3.cross, Quat.qmul, Quat.qnormalize, Quat.normSq, Vec3.add_def]
  norm_num

/-- C10: for every canonical pose and random draws, the z-component of the
composed position equals the canonical position's z plus 0.0021, because the
random rotation is a pure yaw about z and the offset has fixed z 0.0021. -/
theorem composePose_z_offset (θ ux uy : ℝ) (pStable : Vec3) (qStable : Quat) :
    (composePose pStable qStable (pRandomOffset ux uy) (fromEulerZ θ)).p.z =
      pStable.z + 21 / 10000 := by
  simp only [composePose, pRandomOffset, fromEulerZ, Quat.rotate, Vec3.cross,
    Vec3.add_def]
  ring

/-! ## Stable-pose catalog filtering (`main.py:199-218`) -/

/-- `main.py:202`:
`object_stable_prob[object_stable_prob > self.min_stable_pose_prob][:self.max_num_stable_pose]`
— keep the probabilities strictly above the minimum, then take the first
`max_num_stable_pose` of them. -/
def filterProbsPre (minP : ℚ) (maxN : ℕ) (probs : List ℚ) : List ℚ :=
  (probs.filter (fun p => decide (minP < p))).take maxN

/-- `main.py:203`: `object_stable_prob / np.sum(object_stable_prob)` —
renormalize the retained probabilities. -/
def objectStableProb (minP : ℚ) (maxN : ℕ) (probs : List ℚ) : List ℚ :=
  (filterProbsPre minP maxN probs).map
    (fun p => p / (filterProbsPre minP maxN probs).sum)

/-- `main.py:204`: `object_stable_poses[:len(object_stable_prob)]` — truncate
the pose array to the retained probability count (poses kept generic). -/
def objectStablePoses (minP : ℚ) (maxN : ℕ) (probs : List ℚ)
    (poses : List α) : List α :=
  poses.take (filterProbsPre minP maxN probs).length

/-- Summing a list divided elementwise by a constant. -/
theorem sum_map_div (l : List ℚ) (s : ℚ) :
    (l.map (fun p => p / s)).sum = l.sum / s := by
  induction l with
  | nil => simp
  | cons a t ih => simp [ih, add_div]

/-- On a list sorted in non-increasing order, filtering by `minP < ·` keeps
exactly a prefix. -/
theorem filter_sorted_eq_take (minP : ℚ) (probs : List ℚ)
    (hsort : probs.Pairwise (· ≥ ·)) :
    probs.filter (fun p => decide (minP < p)) =
      probs.take (probs.filter (fun p => decide (minP < p))).length := by
  induction probs with
  | nil => simp
  | cons a t ih =>
    rcases List.pairwise_cons.mp hsort with ⟨ha, ht⟩
    by_cases h : minP < a
    · simp only [List.filter_cons, h, List.length_cons, List.take_succ_cons]
      exact congrArg (List.cons a) (ih ht)
    · have htail : t.filter (fun p => decide (minP < p)) = [] := by
        refine List.filter_eq_nil_iff.mpr (fun b hb => ?_)
        have hba : b ≤ a := ha b hb
        simpa using not_lt.mpr (le_trans hba (not_lt.mp h))
      simp [List.filter_cons, h, htail]

/-- Every retained (pre-normalization) probability is strictly above the
configured minimum. -/
theorem mem_filterProbsPre (minP : ℚ) (maxN : ℕ) (probs : List ℚ)
    (p : ℚ) (hp : p ∈ filterProbsPre minP maxN probs) : minP < p := by
  have hp2 : p ∈ probs.filter (fun p => decide (minP < p)) :=
    List.take_subset maxN _ hp
  simpa using (List.mem_filter.mp hp2).2

/-- C6: whenever filtering retains at least one entry (with a non-negative
minimum threshold, a probability array pre-sorted in non-increasing order,
and a pose array at least as long as the probability array), the renormalized
probabilities sum to 1, the retained pose and probability arrays have the
same positive length of at most `max_num_stable_pose`, and the entry at
index i of each retained array is the entry at index i of the corresponding
input array. -/
theorem catalog_invariants (minP : ℚ) (maxN : ℕ) (probs : List ℚ)
    (poses : List α) (hmin : 0 ≤ minP) (hsort : probs.Pairwise (· ≥ ·))
    (hlen : probs.length ≤ poses.length)
    (hne : filterProbsPre minP maxN probs ≠ []) :
    (objectStableProb minP maxN probs).sum = 1 ∧
    (objectStablePoses minP maxN probs poses).length =
      (objectStableProb minP maxN probs).length ∧
    0 < (objectStableProb minP maxN probs).length ∧
    (objectStableProb minP maxN probs).length ≤ maxN ∧
    (∀ i, i < (objectStableProb minP maxN probs).length →
      (objectStablePoses minP maxN probs poses)[i]? = poses[i]? ∧
      (filterProbsPre minP maxN probs)[i]? = probs[i]?) := by
  set pre := filterProbsPre minP maxN probs with hpre
  have hpos : ∀ p ∈ pre, 0 < p := fun p hp =>
    lt_of_le_of_lt hmin (mem_filterProbsPre minP maxN probs p hp)
  have hsum : 0 < pre.sum := List.sum_pos pre hpos hne
  have hklen : pre.length ≤ probs.length := by
    calc pre.length ≤ (probs.filter (fun p => decide (minP < p))).length :=
          List.length_take_le' maxN _
    _ ≤ probs.length := List.length_filter_le _ _
  have hprobLen : (objectStableProb minP maxN probs).length = pre.length := by
    simp [objectStableProb]
  have hposesLen : (objectStablePoses minP maxN probs poses).length =
      pre.length := by
    simp only [objectStablePoses, List.length_take]
    exact Nat.min_eq_left (le_trans hklen hlen)
  refine ⟨?_, ?_, ?_, ?_, ?_⟩
  · simp only [objectStableProb, ← hpre, sum_map_div]
    exact div_self (ne_of_gt hsum)
  · rw [hposesLen, hprobLen]
  · rw [hprobLen]
    exact List.length_pos.mpr hne
  · rw [hprobLen]
    exact List.length_take_le maxN (probs.filter (fun p => decide (minP < p)))
  · intro i hi
    rw [hprobLen] at hi
    constructor
    · have hobj : objectStablePoses minP maxN probs poses =
          poses.take pre.length := rfl
      rw [hobj]
      exact List.getElem?_take_of_lt hi
    · have hfil := filter_sorted_eq_take minP probs hsort
      have hpre2 : pre = probs.take (min maxN
          (probs.filter (fun p => decide (minP < p))).length) := by
        rw [hpre]
        show (probs.filter (fun p => decide (minP < p))).take maxN = _
        conv_lhs => rw [hfil]
        rw [List.take_take]
      have hlt : i < min maxN
          (probs.filter (fun p => decide (minP < p))).length := by
        refine lt_of_lt_of_le hi ?_
        rw [hpre2, List.length_take]
        exact Nat.min_le_left _ _
      rw [hpre2]
      exact List.getElem?_take_of_lt hlt

/-- Witness for `catalog_invariants`: the catalog `[1/2, 3/10, 1/5]` with
minimum 1/10 and maximum size 2 renormalizes to probabilities summing to 1. -/
theorem catalog_invariants_witness :
    (objectStableProb (1/10) 2 [1/2, 3/10, 1/5]).sum = 1 :=
  (catalog_invariants (1/10) 2 [1/2, 3/10, 1/5] ([10, 20, 30] : List ℕ)
    (by norm_num) (by norm_num [List.pairwise_cons]) (by norm_num)
    (by
      have h : filterProbsPre (1/10) 2 [1/2, 3/10, 1/5] = [1/2, 3/10] := by
        norm_num [filterProbsPre, List.filter_cons, List.filter_nil]
      rw [h]
      exact List.cons_ne_nil _ _)).1

/-- C7 counterexample: with minimum threshold 1/2, a catalog whose only
entry is exactly 1/2 is filtered to empty — an entry whose probability
equals the minimum is dropped, not retained. -/
theorem filter_drops_entry_equal_to_min :
    filterProbsPre (1/2) 10 [1/2] = [] ∧
    ¬ ((1 : ℚ)/2 ∈ filterProbsPre (1/2) 10 [1/2]) := by
  constructor
  · norm_num [filterProbsPre, List.filter_cons, List.filter_nil]
  · norm_num [filterProbsPre, List.filter_cons, List.filter_nil]

/-- C7 (amended): the filter retains exactly the entries strictly above
`min_stable_pose_prob` (an entry equal to the minimum is dropped), truncates
the retained entries to the first `max_num_stable_pose`, and only then
renormalizes. -/
theorem filter_strict_then_truncate (minP : ℚ) (maxN : ℕ) (probs : List ℚ) :
    (∀ p ∈ filterProbsPre minP maxN probs, minP < p) ∧
    (filterProbsPre minP maxN probs).length ≤ maxN ∧
    filterProbsPre minP maxN probs =
      (probs.filter (fun p => decide (minP < p))).take maxN ∧
    objectStableProb minP maxN probs = (filterProbsPre minP maxN probs).map
      (fun p => p / (filterProbsPre minP maxN probs).sum) :=
  ⟨mem_filterProbsPre minP maxN probs, List.length_take_le maxN _, rfl, rfl⟩

/-- Witness for `filter_strict_then_truncate`: the retained entry 3/4 of the
catalog `[3/4]` is strictly above the minimum 1/2. -/
theorem filter_strict_then_truncate_witness : (1 : ℚ)/2 < 3/4 :=
  (filter_strict_then_truncate (1/2) 5 [3/4]).1 (3/4)
    (by norm_num [filterProbsPre, List.filter_cons, List.filter_nil])

/-! ## Stable-pose sampling at scene construction (`main.py:230-236`) -/

/-- `main.py:235`:
`self.object_stable_poses[np.random.randint(len(self.object_stable_poses))]`
— the catalog index assigned to an environment is the raw uniform
`randint` draw itself. -/
def sampledPoseIndex (r : ℕ) : ℕ := r

/-- Probability that the single draw of `main.py:235` selects index i of an
n-entry filtered catalog, `randint(n)` being uniform on `{0, ..., n-1}`:
the fraction of draws mapped to i. -/
def selectionProb (n i : ℕ) : ℚ :=
  (((Finset.range n).filter (fun r => sampledPoseIndex r = i)).card : ℚ) / n

/-- Uniformity of the draw of `main.py:235`: each index is selected with
probability 1/n. -/
theorem selectionProb_eq (n i : ℕ) (h : i < n) : selectionProb n i = 1 / n := by
  have hfe : (Finset.range n).filter (fun r => sampledPoseIndex r = i) =
      {i} := by
    simp only [sampledPoseIndex]
    rw [Finset.filter_eq']
    exact if_pos (Finset.mem_range.mpr h)
  rw [selectionProb, hfe, Finset.card_singleton]
  norm_num

/-- C1 counterexample: for the already-normalized two-entry catalog
`[9/10, 1/10]`, the draw selects index 0 with probability 1/2, not with the
renormalized probability mass 9/10 at index 0. -/
theorem selection_not_probability_weighted :
    selectionProb 2 0 ≠ (objectStableProb 0 2 [9/10, 1/10]).getD 0 0 := by
  rw [selectionProb_eq 2 0 (by norm_num)]
  have h : objectStableProb 0 2 [9/10, 1/10] = [9/10, 1/10] := by
    norm_num [objectStableProb, filterProbsPre, List.filter_cons, List.filter_nil]
  rw [h]
  norm_num

/-- C1 (amended): each environment's canonical pose comes from one randint
draw that selects every index of the n-entry filtered catalog with the same
probability 1/n, regardless of the configured probability masses. -/
theorem selection_uniform (n i : ℕ) (h : i < n) : selectionProb n i = 1 / n :=
  selectionProb_eq n i h

/-- Witness for `selection_uniform`: index 2 of a 5-entry catalog is drawn
with probability 1/5. -/
theorem selection_uniform_witness : selectionProb 5 2 = 1 / 5 :=
  selection_uniform 5 2 (by decide)

/-! ## Environment creation and the empty-catalog failure (`main.py:231-269`) -/

/-- `np.random.randint(n)`: raises `ValueError: low >= high` when n = 0,
otherwise yields the supplied draw reduced into range. -/
def randint (n r : ℕ) : Except String ℕ :=
  if n = 0 then .error "ValueError: low >= high" else .ok (r % n)

/-- The environment-creation loop of `main.py:231-269`, restricted to the
steps the claims depend on: for each environment index, `create_env`
(`main.py:233`) runs first, and only afterwards is the canonical pose drawn
with one `randint` draw (`main.py:235`). A failure reports how many
environments were already created together with the message; success
returns the canonical pose assigned to each environment in order. -/
def createEnvsLoop [Inhabited α] (poses : List α) (rs : ℕ → ℕ) :
    ℕ → ℕ → List α → Except (ℕ × String) (List α)
  | 0, _, acc => .ok acc.reverse
  | n + 1, envIdx, acc =>
    match randint poses.length (rs envIdx) with
    | .error msg => .error (envIdx + 1, msg)
    | .ok r => createEnvsLoop poses rs n (envIdx + 1) (poses.getD r default :: acc)

/-- `_create_envs`'s loop over `range(self.num_envs)` (`main.py:231`). -/
def createEnvs [Inhabited α] (numEnvs : ℕ) (poses : List α) (rs : ℕ → ℕ) :
    Except (ℕ × String) (List α) :=
  createEnvsLoop poses rs numEnvs 0 []

/-- C4 counterexample: with an empty filtered catalog the run does fail
fatally (`randint` raises ValueError), but only after the first environment
has been created — the abort does not happen before any simulated
environment is created. -/
theorem empty_catalog_aborts_after_first_env :
    createEnvs 4 ([] : List ℕ) (fun _ => 0) =
      .error (1, "ValueError: low >= high") ∧ (1 : ℕ) ≠ 0 :=
  ⟨rfl, by decide⟩

/-- C4 (amended): for every positive environment count, an empty filtered
catalog makes the run fail fatally with `randint`'s ValueError while setting
up the first environment — after exactly one environment has been created,
before any object actor is placed. -/
theorem empty_catalog_fatal [Inhabited α] (numEnvs : ℕ) (rs : ℕ → ℕ)
    (h : 0 < numEnvs) :
    createEnvs numEnvs ([] : List α) rs =
      .error (1, "ValueError: low >= high") := by
  cases numEnvs with
  | zero => exact absurd h (by decide)
  | succ k => rfl

/-- Witness for `empty_catalog_fatal` at three environments. -/
theorem empty_catalog_fatal_witness :
    createEnvs 3 ([] : List ℕ) (fun _ => 0) =
      .error (1, "ValueError: low >= high") :=
  empty_catalog_fatal 3 (fun _ => 0) (by decide)

/-! ## Pose-randomizer yaw draw (`main.py:289-294`) -/

/-- The symmetry sentinel test of `main.py:290`:
`q_stable.w == -0.706636 or q_stable.w == 0.000685`, the two float literals
taken at their decimal values. -/
def symSentinel (qw : ℚ) : Bool :=
  qw == -706636/1000000 || qw == 685/1000000

/-- The yaw angle used by `reset_env` (`main.py:289-294`): when the sentinel
matches, line 291 binds `q_random` from the `[0, π/2)` draw (`drawSym`), but
line 293 unconditionally rebinds `q_random` from the `[0, 2π)` draw
(`drawFull`), so the constrained draw is discarded in every case. -/
def resetEnvYawAngle (qw : ℚ) (drawSym drawFull : ℝ) : ℝ :=
  let _qRandomLine291 : Option ℝ :=
    if symSentinel qw then some drawSym else none
  drawFull

/-- C2 (code bug): the yaw entering the pose composition is always the
full-range `[0, 2π)` draw; the `[0, π/2)` draw for sentinel-matching
canonical poses is dead code. At the sentinel pose with full-range draw
3π/2, the yaw used is 3π/2, which exceeds π/2. -/
theorem reset_yaw_ignores_symmetry :
    (∀ (qw : ℚ) (drawSym drawFull : ℝ),
      resetEnvYawAngle qw drawSym drawFull = drawFull) ∧
    symSentinel (-706636/1000000) = true ∧
    resetEnvYawAngle (-706636/1000000) 0 (3 * Real.pi / 2) =
      3 * Real.pi / 2 ∧
    Real.pi / 2 < 3 * Real.pi / 2 := by
  refine ⟨fun qw s f => rfl, ?_, rfl, ?_⟩
  · simp [symSentinel]
  · linarith [Real.pi_pos]

/-! ## The iteration driver (`main.py:420-431`) -/

/-- The names bound at module scope of `main.py` when the `__main__` block
reaches line 422: the imports of lines 1-13, the class of line 15, and
`env` from line 421. `config_file` is only a local of
`DataGenEnv.__init__` (line 40); no line of `main.py` binds it at module
scope. -/
def mainModuleScope : List String :=
  ["os", "time", "yaml", "gymapi", "gymutil", "np", "torch", "R", "plt",
   "DataGenEnv", "env"]

/-- Python global-name lookup as seen by the `__main__` block. -/
def lookupGlobal (name : String) : Except String Unit :=
  if name ∈ mainModuleScope then .ok ()
  else .error ("NameError: name " ++ name ++ " is not defined")

/-- The `__main__` block (`main.py:420-431`): after constructing the
environment, line 422 evaluates the bare name `config_file` to reopen the
configuration file; only if that lookup succeeds does the
`for i in range(env.num_iters)` loop run, one `env.step(i)` per iteration.
Returns the number of completed iterations, or the uncaught exception. -/
def pythonMain (numIters : ℕ) : Except String ℕ :=
  match lookupGlobal "config_file" with
  | .error e => .error e
  | .ok _ => .ok numIters

/-- C3 (code bug): every run of the `__main__` block raises NameError at
line 422, before the first iteration — no run completes its `num_iters`
iterations. -/
theorem main_driver_nameerror :
    (∀ numIters : ℕ, pythonMain numIters =
      .error "NameError: name config_file is not defined") ∧
    (∀ numIters k : ℕ, pythonMain numIters ≠ .ok k) := by
  constructor
  · intro n
    rfl
  · intro n k h
    exact Except.noConfusion h

/-! ## Camera model (`main.py:242-245`) -/

/-- Python `int()`: truncation toward zero. -/
def pyInt (q : ℚ) : ℤ := if 0 ≤ q then ⌊q⌋ else -⌊-q⌋

/-- `camera_props.width = int(self.camera_matrix[0,2] * 2.0)`
(`main.py:243`); `camera_matrix[0,2]` is cx. -/
def cameraWidth (cx : ℚ) : ℤ := pyInt (cx * 2)

/-- `camera_props.height = int(self.camera_matrix[1,2] * 2.0)`
(`main.py:244`); `camera_matrix[1,2]` is cy. -/
def cameraHeight (cy : ℚ) : ℤ := pyInt (cy * 2)

/-- `np.arctan2(y, x)`. -/
noncomputable def arctan2 (y x : ℝ) : ℝ :=
  if 0 < x then Real.arctan (y / x)
  else if x < 0 ∧ 0 ≤ y then Real.arctan (y / x) + Real.pi
  else if x < 0 then Real.arctan (y / x) - Real.pi
  else if 0 < y then Real.pi / 2
  else if y < 0 then -(Real.pi / 2)
  else 0

/-- `camera_props.horizontal_fov = 2*np.arctan2(cx, fx) * 180/np.pi`
(`main.py:245`); `camera_matrix[0,0]` is fx. -/
noncomputable def horizontalFov (fx cx : ℚ) : ℝ :=
  2 * arctan2 (cx : ℝ) (fx : ℝ) * (180 / Real.pi)

/-- An integer-valued non-negative rational survives `int()` unchanged. -/
theorem pyInt_cast (q : ℚ) (hq : 0 ≤ q) (hden : q.den = 1) :
    ((pyInt q : ℤ) : ℚ) = q := by
  rw [pyInt, if_pos hq]
  have h2 : ((q.num : ℤ) : ℚ) = q := by
    rw [← Rat.den_eq_one_iff]
    exact hden
  rw [← h2, Int.floor_intCast]

/-- C8: for intrinsics with non-negative principal point whose doubled
coordinates are whole numbers and with positive focal length, the derived
pixel width is exactly 2·cx, the pixel height exactly 2·cy, and the
horizontal field of view is `2·atan2(cx, fx)` converted to degrees, i.e.
`2·arctan(cx/fx)·180/π`. -/
theorem camera_model_spec (fx cx cy : ℚ) (hcx : 0 ≤ cx) (hcy : 0 ≤ cy)
    (hx : (cx * 2).den = 1) (hy : (cy * 2).den = 1) (hfx : 0 < fx) :
    (cameraWidth cx : ℚ) = 2 * cx ∧ (cameraHeight cy : ℚ) = 2 * cy ∧
    horizontalFov fx cx =
      2 * Real.arctan ((cx : ℝ) / (fx : ℝ)) * (180 / Real.pi) := by
  refine ⟨?_, ?_, ?_⟩
  · rw [cameraWidth, pyInt_cast (cx * 2) (by positivity) hx]
    ring
  · rw [cameraHeight, pyInt_cast (cy * 2) (by positivity) hy]
    ring
  · have hpos : (0 : ℝ) < (fx : ℝ) := by exact_mod_cast hfx
    rw [horizontalFov, arctan2, if_pos hpos]

/-- Witness for `camera_model_spec` at fx = fy = 1000, cx = 320, cy = 240:
width 640, height 480, FOV `2·atan2(320, 1000)` in degrees. -/
theorem camera_model_spec_witness :
    (cameraWidth 320 : ℚ) = 640 ∧ (cameraHeight 240 : ℚ) = 480 ∧
    horizontalFov 1000 320 =
      2 * Real.arctan ((320 : ℝ) / 1000) * (180 / Real.pi) := by
  have h := camera_model_spec 1000 320 240 (by norm_num) (by norm_num)
    (by norm_num) (by norm_num) (by norm_num)
  refine ⟨by rw [h.1]; norm_num, by rw [h.2.1]; norm_num, ?_⟩
  rw [h.2.2]
  norm_num

/-! ## Capture & export file naming (`main.py:348-362`) -/

/-- The three artifact roles written per sample (`main.py:357-362`). -/
inductive Role
  | image
  | mask
  | pose
deriving DecidableEq

/-- The on-disk name prefix of each role (`'image'`, `'mask'`, `'pose'` in
`main.py:357-362`). -/
def roleName : Role → String
  | .image => "image"
  | .mask => "mask"
  | .pose => "pose"

/-- `("_%0" + str(FILE_ZERO_PADDING_NUM) + 'd.npy') % idx` without the
leading underscore and trailing extension: the index zero-padded to at
least `pad` digits (`main.py:356`). -/
def zeroPad (pad idx : ℕ) : String :=
  let s := toString idx
  String.mk (List.replicate (pad - s.length) '0') ++ s

/-- The full artifact file name `role + name` of `main.py:356-362`. -/
def sampleFileName (pad : ℕ) (role : String) (idx : ℕ) : String :=
  role ++ "_" ++ zeroPad pad idx ++ ".npy"

/-- The (role, global index) pairs written by iteration `n` when persistence
is enabled (`main.py:355-362`): for every env index e in order, an image, a
mask and a pose artifact, all three with global index
`n_step * self.num_envs + env_idx`. -/
def iterationWrites (numEnvs n : ℕ) : List (Role × ℕ) :=
  (List.range numEnvs).flatMap (fun e =>
    [(Role.image, n * numEnvs + e), (Role.mask, n * numEnvs + e),
     (Role.pose, n * numEnvs + e)])

/-- The artifact file names written by iteration `n`. -/
def iterationFileNames (pad numEnvs n : ℕ) : List String :=
  (iterationWrites numEnvs n).map
    (fun w => sampleFileName pad (roleName w.1) w.2)

/-- All (role, global index) pairs written by a run of `num_iters`
iterations (the loop of `main.py:427-431` invoking `step(i)`). -/
def runWrites (numEnvs numIters : ℕ) : List (Role × ℕ) :=
  (List.range numIters).flatMap (fun n => iterationWrites numEnvs n)

/-- Restricting the per-env triple writes to one role recovers the global
indices in order. -/
theorem filter_map_triple (g : ℕ → ℕ) (l : List ℕ) :
    ((l.flatMap (fun e =>
        [(Role.image, g e), (Role.mask, g e), (Role.pose, g e)])).filter
      (fun w => decide (w.1 = Role.image))).map Prod.snd = l.map g := by
  induction l with
  | nil => rfl
  | cons a t ih =>
    simp only [List.flatMap_cons, List.filter_append, List.map_append, ih]
    simp [List.filter_cons]

/-- Each env contributes exactly three writes. -/
theorem triple_length (g : ℕ → ℕ) (l : List ℕ) :
    (l.flatMap (fun e =>
      [(Role.image, g e), (Role.mask, g e), (Role.pose, g e)])).length =
      3 * l.length := by
  induction l with
  | nil => rfl
  | cons a t ih =>
    simp only [List.flatMap_cons, List.length_append, List.length_cons, ih,
      List.length_nil]
    ring

/-- Concatenating the per-iteration index blocks `n*E .. n*E+E-1` over
`n < I` gives exactly `0 .. I*E-1`. -/
theorem range_flatMap_mul (E : ℕ) : ∀ I : ℕ,
    (List.range I).flatMap (fun n => (List.range E).map (fun e => n * E + e)) =
      List.range (I * E) := by
  intro I
  induction I with
  | zero => simp
  | succ k ih =>
    rw [List.range_succ, List.flatMap_append, ih]
    simp only [List.flatMap_cons, List.flatMap_nil, List.append_nil]
    rw [Nat.succ_mul, List.range_add]

/-- The image-role writes of a run, projected to their indices. -/
theorem run_filter_map (E : ℕ) (L : List ℕ) :
    ((L.flatMap (fun n => iterationWrites E n)).filter
      (fun w => decide (w.1 = Role.image))).map Prod.snd =
      L.flatMap (fun n => (List.range E).map (fun e => n * E + e)) := by
  induction L with
  | nil => rfl
  | cons a t ih =>
    simp only [List.flatMap_cons, List.filter_append, List.map_append, ih]
    rw [iterationWrites, filter_map_triple]

/-- C9: with persistence enabled, iteration n writes exactly 3·num_envs
array files; for every env index e below num_envs the three roles image,
mask and pose each get a file suffixed with the zero-padded global index
`n*num_envs + e`; and across a whole run the image files (equally, mask or
pose files) carry exactly the distinct consecutive global indices
`0 .. num_iters*num_envs - 1`, for `3·(num_iters·num_envs)` files in all. -/
theorem capture_export_files (pad numEnvs numIters n e : ℕ)
    (he : e < numEnvs) :
    (iterationWrites numEnvs n).length = 3 * numEnvs ∧
    sampleFileName pad "image" (n * numEnvs + e) ∈
      iterationFileNames pad numEnvs n ∧
    sampleFileName pad "mask" (n * numEnvs + e) ∈
      iterationFileNames pad numEnvs n ∧
    sampleFileName pad "pose" (n * numEnvs + e) ∈
      iterationFileNames pad numEnvs n ∧
    ((runWrites numEnvs numIters).filter
      (fun w => decide (w.1 = Role.image))).map Prod.snd =
      List.range (numIters * numEnvs) ∧
    (runWrites numEnvs numIters).length = 3 * (numIters * numEnvs) := by
  refine ⟨?_, ?_, ?_, ?_, ?_, ?_⟩
  · rw [iterationWrites, triple_length, List.length_range]
  · refine List.mem_map.mpr ⟨(Role.image, n * numEnvs + e), ?_, rfl⟩
    refine List.mem_flatMap.mpr ⟨e, List.mem_range.mpr he, ?_⟩
    simp [iterationWrites]
  · refine List.mem_map.mpr ⟨(Role.mask, n * numEnvs + e), ?_, rfl⟩
    refine List.mem_flatMap.mpr ⟨e, List.mem_range.mpr he, ?_⟩
    simp [iterationWrites]
  · refine List.mem_map.mpr ⟨(Role.pose, n * numEnvs + e), ?_, rfl⟩
    refine List.mem_flatMap.mpr ⟨e, List.mem_range.mpr he, ?_⟩
    simp [iterationWrites]
  · rw [runWrites, run_filter_map, range_flatMap_mul]
  · rw [runWrites]
    induction numIters with
    | zero => simp
    | succ k ih =>
      rw [List.range_succ, List.flatMap_append, List.length_append, ih]
      simp only [List.flatMap_cons, List.flatMap_nil, List.append_nil]
      rw [iterationWrites, triple_length, List.length_range]
      ring

/-- Witness for `capture_export_files`: with num_envs = 4, num_iters = 2,
padding 5, iteration 1 writes an image file for env 3 at global index 7. -/
theorem capture_export_files_witness :
    sampleFileName 5 "image" (1 * 4 + 3) ∈ iterationFileNames 5 4 1 :=
  (capture_export_files 5 4 2 1 3 (by norm_num)).2.1

end PosenetDatagen
